import Mathlib

/-!
Verification of the annotation frontend (AnnotationPage / ValidationComponent)
and the spec-modelled span fixer of the Annotation_NER_LLM_NextJS repository.

The data model and the operations below are shallow embeddings of the
TypeScript source in `src/pages/AnnotationPage.tsx` and
`src/components/ValidationComponent.tsx` (two variants of the latter exist in
the repository).  Character offsets are embedded as `Int` (JavaScript numbers
restricted to integer values by the producing code), texts as `String` /
`List Char`, and the JavaScript stable `Array.prototype.sort` with comparator
`(a, b) => a.start_char - b.start_char` as a stable insertion sort by the
`start_char` key.
-/

namespace Annot

/-- Provenance of a span: produced by the LLM or authored by the user.
Embeds the TypeScript string union `"llm" | "manual"`. -/
inductive Source where
  | llm
  | manual
deriving DecidableEq, Repr

/-- The `AnnotationEntity` interface of `AnnotationPage.tsx` /
`ValidationComponent.tsx`: a labeled character span. `confidence` and
`source` are optional fields. -/
structure AnnotationEntity where
  start_char : Int
  end_char : Int
  text : String
  label : String
  confidence : Option Rat
  source : Option Source
deriving DecidableEq, Repr

/-- Stamp a source value onto an entity, as the object spreads
`{ ...e, source: "llm" }` / `{ ...e, source: "manual" }` do. -/
def stampSource (s : Source) (e : AnnotationEntity) : AnnotationEntity :=
  { e with source := some s }

/-- Stable insertion of an element into a list ordered by an integer key:
the element goes before the first strictly larger-or-equal-keyed position
whose key exceeds it, and after all elements with a key less than or equal
to its own.  This is the insertion step of a stable sort. -/
def insertByKey (key : α → Int) (e : α) : List α → List α
  | [] => [e]
  | x :: xs =>
    if key e ≤ key x then e :: x :: xs else x :: insertByKey key e xs

/-- Stable sort by an integer key.  Embeds JavaScript's (stable)
`Array.prototype.sort((a, b) => key(a) - key(b))`. -/
def sortByKey (key : α → Int) : List α → List α
  | [] => []
  | e :: es => insertByKey key e (sortByKey key es)

/-- The `combinedEntities` memo of `AnnotationPage.tsx`: spread-copies of the
LLM entities stamped `source: "llm"`, followed by spread-copies of the manual
entities stamped `source: "manual"`, sorted by `start_char` only. -/
def combinedEntities (entities manualEntities : List AnnotationEntity) :
    List AnnotationEntity :=
  sortByKey (fun e => e.start_char)
    (entities.map (stampSource Source.llm) ++
      manualEntities.map (stampSource Source.manual))

/-- Two half-open ranges `[a.start_char, a.end_char)` and
`[b.start_char, b.end_char)` do not intersect. -/
def rangesDisjoint (a b : AnnotationEntity) : Prop :=
  a.end_char ≤ b.start_char ∨ b.end_char ≤ a.start_char

instance (a b : AnnotationEntity) : Decidable (rangesDisjoint a b) := by
  unfold rangesDisjoint; infer_instance

/-- No two spans of the list have intersecting ranges. -/
def pairwiseNonOverlapping (l : List AnnotationEntity) : Prop :=
  l.Pairwise rangesDisjoint

instance (l : List AnnotationEntity) : Decidable (pairwiseNonOverlapping l) := by
  unfold pairwiseNonOverlapping; infer_instance

/-- The ordering the spec claims for the combined list: `start` ascending
with ties broken by `end` ascending. -/
def sortedByStartThenEnd (l : List AnnotationEntity) : Prop :=
  l.Pairwise (fun a b =>
    a.start_char < b.start_char ∨
      (a.start_char = b.start_char ∧ a.end_char ≤ b.end_char))

instance (l : List AnnotationEntity) : Decidable (sortedByStartThenEnd l) := by
  unfold sortedByStartThenEnd; infer_instance

/-- The `tokenRecommendations` memo of `AnnotationPage.tsx`.  `Math.ceil` of
`chunkSize / 4` on a natural number is `(chunkSize + 3) / 4`;
`Math.floor(inputTokens / 2)` is natural division. -/
def tokenRecommendations (chunkSize : Nat) : Nat × Nat × Nat × Nat :=
  let inputTokens := (chunkSize + 3) / 4
  let minTokens := max 100 (inputTokens / 2)
  let maxTokensLimit := min 4000 (inputTokens * 3)
  let defaultTokens := min 2000 (inputTokens * 2)
  (minTokens, maxTokensLimit, defaultTokens, inputTokens)

/-- Values reachable through the chunk-size slider of `AnnotationPage.tsx`
(`min="200" max="4000" step="100"`); the initial state `1000` also lies in
this set. -/
def chunkSizeReachable (c : Nat) : Prop :=
  200 ≤ c ∧ c ≤ 4000 ∧ (c - 200) % 100 = 0

/-- Values reachable through the overlap slider of `AnnotationPage.tsx`
(`min="0" max="200" step="10"`); the initial state `50` also lies in this
set. -/
def overlapReachable (o : Nat) : Prop :=
  o ≤ 200 ∧ o % 10 = 0

instance (c : Nat) : Decidable (chunkSizeReachable c) := by
  unfold chunkSizeReachable; infer_instance

instance (o : Nat) : Decidable (overlapReachable o) := by
  unfold overlapReachable; infer_instance

/-- Characters JavaScript's `String.prototype.trim` strips from both ends,
modelled by `Char.isWhitespace`. -/
def trimChars (l : List Char) : List Char :=
  ((l.dropWhile Char.isWhitespace).reverse.dropWhile Char.isWhitespace).reverse

/-- The component-local state of `AnnotationPage.tsx` that the manual
annotation handlers read and write. -/
structure PageState where
  text : String
  entities : List AnnotationEntity
  manualEntities : List AnnotationEntity
  selectedText : String
  selectedRange : Option (Int × Int)
deriving DecidableEq, Repr

/-- The `useState` initial values of `AnnotationPage.tsx`. -/
def initialPageState : PageState :=
  { text := ""
    entities := []
    manualEntities := []
    selectedText := ""
    selectedRange := none }

/-- The `onMouseUp` selection handler: stores the selected text and its
character range in component state. -/
def setSelection (s : String) (r : Int × Int) (st : PageState) : PageState :=
  { st with selectedText := s, selectedRange := some r }

/-- `handleAddManualAnnotation` of `AnnotationPage.tsx`: guarded by
`!selectedRange || !selectedText.trim()`, it appends a new entity with
`confidence: 1.0` and `source: "manual"` to `manualEntities` and clears the
selection. -/
def handleAddManualAnnotation (label : String) (st : PageState) : PageState :=
  match st.selectedRange with
  | none => st
  | some r =>
    if (trimChars st.selectedText.data).isEmpty then st
    else
      { st with
        manualEntities := st.manualEntities ++
          [{ start_char := r.1
             end_char := r.2
             text := st.selectedText
             label := label
             confidence := some 1
             source := some Source.manual }]
        selectedText := ""
        selectedRange := none }

/-- The `onEntitiesUpdate` callback of `AnnotationPage.tsx`: splits the
updated list back into the LLM state via `filter(e => e.source === "llm")`
and the manual state via `filter(e => e.source === "manual")`. -/
def onEntitiesUpdate (updated : List AnnotationEntity) :
    List AnnotationEntity × List AnnotationEntity :=
  (updated.filter (fun e => e.source = some Source.llm),
    updated.filter (fun e => e.source = some Source.manual))

/-- An entity together with its JavaScript object reference, modelled as a
natural number identity: two objects are `===`-equal exactly when their
`ref` fields coincide. -/
structure RefEntity where
  ref : Nat
  val : AnnotationEntity
deriving DecidableEq, Repr

/-- The entity lists of `AnnotationPage.tsx` at the object level, together
with a supply bound `nextRef`: every reference allocated so far is below
`nextRef`, so fresh objects receive references `≥ nextRef`. -/
structure RefState where
  entities : List RefEntity
  manualEntities : List RefEntity
  nextRef : Nat
deriving DecidableEq, Repr

/-- All object references stored in the state are below the supply bound. -/
def refWF (st : RefState) : Prop :=
  (∀ p ∈ st.entities, p.ref < st.nextRef) ∧
    (∀ p ∈ st.manualEntities, p.ref < st.nextRef)

instance (st : RefState) : Decidable (refWF st) := by
  unfold refWF; infer_instance

/-- Allocate consecutive fresh references, starting at `base`, for a list of
newly created objects. -/
def assignRefs (base : Nat) : List AnnotationEntity → List RefEntity
  | [] => []
  | e :: rest => ⟨base, e⟩ :: assignRefs (base + 1) rest

/-- `combinedEntities` at the object level: each element is a fresh spread
copy (`{ ...e, source: ... }`), so it carries a reference distinct from every
object stored in the state; the copies are then sorted by `start_char`. -/
def combinedObjs (st : RefState) : List RefEntity :=
  sortByKey (fun p => p.val.start_char)
    (assignRefs st.nextRef
      (st.entities.map (fun p => stampSource Source.llm p.val) ++
        st.manualEntities.map (fun p => stampSource Source.manual p.val)))

/-- `handleRemoveEntity` of `AnnotationPage.tsx`: dispatches on
`entity.source === "manual"` and filters the corresponding list by object
reference (`e !== entity`). -/
def handleRemoveEntityRef (o : RefEntity) (st : RefState) : RefState :=
  if o.val.source = some Source.manual then
    { st with manualEntities := st.manualEntities.filter (fun p => p.ref ≠ o.ref) }
  else
    { st with entities := st.entities.filter (fun p => p.ref ≠ o.ref) }

/-- The `fix_statistics` object of the fix response, with exactly the fields
the second `ValidationComponent` variant reads when reporting results. -/
structure FixStatistics where
  total : Nat
  already_correct : Nat
  fixed : Nat
  unfixable : Nat
  multiple_matches : Nat
  strategy_used : String
deriving DecidableEq, Repr

/-- Modelled from the spec: the JSON body returned by `POST /annotations/fix`
(the backend `validation_service` is not part of the frontend sources).  The
spec names the repaired-span key `fixed_entities[]`; the second frontend
variant reads a key `fixed_annotations`, so the response object is modelled
with both optional keys, plus the optional `fix_statistics` object. -/
structure FixResponse where
  fixed_entities : Option (List AnnotationEntity)
  fixed_annotations : Option (List AnnotationEntity)
  fix_statistics : Option FixStatistics
deriving DecidableEq, Repr

/-- The fix-response consumption of the first `ValidationComponent` variant:
`if (result.fixed_entities) { onEntitiesUpdate(result.fixed_entities); }`,
applied to the current pair of entity lists. -/
def applyFixResponseV1 (r : FixResponse)
    (cur : List AnnotationEntity × List AnnotationEntity) :
    List AnnotationEntity × List AnnotationEntity :=
  match r.fixed_entities with
  | some l => onEntitiesUpdate l
  | none => cur

/-- The fix-response consumption of the second `ValidationComponent` variant:
`if (result.fixed_annotations) { onEntitiesUpdate(result.fixed_annotations); }`,
applied to the current pair of entity lists. -/
def applyFixResponseV2 (r : FixResponse)
    (cur : List AnnotationEntity × List AnnotationEntity) :
    List AnnotationEntity × List AnnotationEntity :=
  match r.fixed_annotations with
  | some l => onEntitiesUpdate l
  | none => cur

/-- The substring of `t` on the half-open character range `[s, e)`. -/
def sliceChars (t : List Char) (s e : Nat) : List Char :=
  (t.drop s).take (e - s)

/-- Modelled from the spec: the Span Validator's per-span range and content
checks applied by the Fixer's defensive re-check — offsets in bounds,
`start < end`, and the substring at `[start, end)` equal to the span's
reported text (the backend `validation_service` is not part of the frontend
sources). -/
def spanValid (t : List Char) (en : AnnotationEntity) : Prop :=
  0 ≤ en.start_char ∧ en.start_char < en.end_char ∧
    en.end_char ≤ (t.length : Int) ∧
    sliceChars t en.start_char.toNat en.end_char.toNat = en.text.data

instance (t : List Char) (en : AnnotationEntity) : Decidable (spanValid t en) := by
  unfold spanValid; infer_instance

/-- All offsets at which the pattern `p` occurs in the text `t`, ascending. -/
def occList (t p : List Char) : List Nat :=
  (List.range t.length).filter (fun i => sliceChars t i (i + p.length) = p)

/-- Among candidate offsets, keep the one whose distance to the originally
reported start is smallest; on ties the earlier (smaller) offset is kept
because the fold only replaces on strict improvement and `occList` is
ascending. -/
def pickClosest (s : Int) (o : Nat) (rest : List Nat) : Nat :=
  rest.foldl
    (fun (b c : Nat) =>
      if ((c : Int) - s).natAbs < ((b : Int) - s).natAbs then c else b) o

/-- Outcome classification of the Fixer for a single span. -/
inductive FixOutcome where
  | already_correct
  | exact_match
  | closest_occurrence
  | fuzzy_match
  | unfixable
deriving DecidableEq, Repr

/-- Relocate a span to offset `o` for a pattern of length `p.length`,
recomputing its `text` from the new offsets as the spec requires. -/
def relocateTo (t : List Char) (en : AnnotationEntity) (p : List Char)
    (o : Nat) : AnnotationEntity :=
  { en with
    start_char := (o : Int)
    end_char := (o : Int) + p.length
    text := ⟨sliceChars t o (o + p.length)⟩ }

/-- Modelled from the spec: the re-search step of the Fixer.  A non-empty
pattern is searched in the original text; with at least one occurrence the
span is relocated to the occurrence closest to its originally reported
`start` (tie-break: smallest offset), and whether several occurrences
existed is reported.  An empty pattern can never reconstitute a valid span
(`start < end` would fail) and yields no candidate. -/
def searchRelocate (t : List Char) (en : AnnotationEntity) (p : List Char) :
    Option (AnnotationEntity × Bool) :=
  if p.isEmpty then none
  else
    match occList t p with
    | [] => none
    | o :: rest =>
      some (relocateTo t en p (pickClosest en.start_char o rest), !rest.isEmpty)

/-- Modelled from the spec: the Fixer's per-span strategy chain — defensive
re-validation (`already_correct`), exact re-search of the span's text
(`exact_match` for a unique occurrence, `closest_occurrence` otherwise),
whitespace-trimmed fuzzy re-search (`fuzzy_match`), and finally `unfixable`,
in which case the span is dropped. -/
def fixOne (t : List Char) (en : AnnotationEntity) :
    Option AnnotationEntity × FixOutcome :=
  if spanValid t en then (some en, FixOutcome.already_correct)
  else
    match searchRelocate t en en.text.data with
    | some (en', multi) =>
      (some en', if multi then FixOutcome.closest_occurrence else FixOutcome.exact_match)
    | none =>
      match searchRelocate t en (trimChars en.text.data) with
      | some (en', _) => (some en', FixOutcome.fuzzy_match)
      | none => (none, FixOutcome.unfixable)

/-- Aggregate result of a Fixer run: the fixed span set plus the counts the
`fix_statistics` object reports. -/
structure FixResult where
  fixed_entities : List AnnotationEntity
  total : Nat
  already_correct : Nat
  fixed : Nat
  unfixable : Nat
  multiple_matches : Nat
deriving DecidableEq, Repr

/-- Modelled from the spec: the whole-batch Fixer behind
`POST /annotations/fix` — every span is processed independently, repaired
spans are kept (with recomputed text) and unfixable spans are omitted, while
the aggregate counts are accumulated. -/
def fixAnnotations (t : List Char) : List AnnotationEntity → FixResult
  | [] => ⟨[], 0, 0, 0, 0, 0⟩
  | en :: rest =>
    let r := fixAnnotations t rest
    match fixOne t en with
    | (some en', FixOutcome.already_correct) =>
      { r with
        fixed_entities := en' :: r.fixed_entities
        total := r.total + 1
        already_correct := r.already_correct + 1 }
    | (some en', FixOutcome.closest_occurrence) =>
      { r with
        fixed_entities := en' :: r.fixed_entities
        total := r.total + 1
        fixed := r.fixed + 1
        multiple_matches := r.multiple_matches + 1 }
    | (some en', _) =>
      { r with
        fixed_entities := en' :: r.fixed_entities
        total := r.total + 1
        fixed := r.fixed + 1 }
    | (none, _) =>
      { r with
        total := r.total + 1
        unfixable := r.unfixable + 1 }

theorem insertByKey_perm (key : α → Int) (e : α) (l : List α) :
    (insertByKey key e l).Perm (e :: l) := by
  induction l with
  | nil => simp [insertByKey]
  | cons x xs ih =>
    by_cases h : key e ≤ key x
    · simp [insertByKey, h]
    · simp only [insertByKey, h, if_neg, if_false]
      exact (ih.cons x).trans (List.Perm.swap e x xs)

theorem sortByKey_perm (key : α → Int) (l : List α) :
    (sortByKey key l).Perm l := by
  induction l with
  | nil => simp [sortByKey]
  | cons e es ih =>
    exact (insertByKey_perm key e (sortByKey key es)).trans (ih.cons e)

theorem insertByKey_pairwise (key : α → Int) (e : α) (l : List α)
    (h : l.Pairwise (fun a b => key a ≤ key b)) :
    (insertByKey key e l).Pairwise (fun a b => key a ≤ key b) := by
  induction l with
  | nil => simp [insertByKey]
  | cons x xs ih =>
    rcases List.pairwise_cons.mp h with ⟨hx, hxs⟩
    by_cases hle : key e ≤ key x
    · simp only [insertByKey, hle, if_true]
      refine List.pairwise_cons.mpr ⟨?_, h⟩
      intro y hy
      rcases List.mem_cons.mp hy with rfl | hy
      · exact hle
      · exact le_trans hle (hx y hy)
    · simp only [insertByKey, hle, if_false]
      refine List.pairwise_cons.mpr ⟨?_, ih hxs⟩
      intro y hy
      have hy' : y ∈ e :: xs := (insertByKey_perm key e xs).mem_iff.mp hy
      rcases List.mem_cons.mp hy' with rfl | hy'
      · omega
      · exact hx y hy'

theorem sortByKey_pairwise (key : α → Int) (l : List α) :
    (sortByKey key l).Pairwise (fun a b => key a ≤ key b) := by
  induction l with
  | nil => simp [sortByKey]
  | cons e es ih => exact insertByKey_pairwise key e (sortByKey key es) ih

theorem occList_mem {t p : List Char} {i : Nat} (h : i ∈ occList t p) :
    (t.drop i).take p.length = p ∧ i + p.length ≤ t.length := by
  unfold occList at h
  rw [List.mem_filter, List.mem_range] at h
  obtain ⟨hi, hp⟩ := h
  rw [decide_eq_true_eq] at hp
  unfold sliceChars at hp
  have hsub : i + p.length - i = p.length := by omega
  rw [hsub] at hp
  refine ⟨hp, ?_⟩
  have hl := congrArg List.length hp
  simp [List.length_take, List.length_drop] at hl
  omega

theorem foldl_choice_mem {f : Nat → Nat → Nat}
    (hf : ∀ b c, f b c = b ∨ f b c = c) :
    ∀ (l : List Nat) (b : Nat), l.foldl f b ∈ b :: l := by
  intro l
  induction l with
  | nil => intro b; simp
  | cons c cs ih =>
    intro b
    rw [List.foldl_cons]
    have h1 := ih (f b c)
    rcases hf b c with h | h <;> rw [h] at h1 ⊢
    · rcases List.mem_cons.mp h1 with h2 | h2
      · rw [h2]; exact List.mem_cons_self _ _
      · exact List.mem_cons_of_mem _ (List.mem_cons_of_mem _ h2)
    · rcases List.mem_cons.mp h1 with h2 | h2
      · rw [h2]; exact List.mem_cons_of_mem _ (List.mem_cons_self _ _)
      · exact List.mem_cons_of_mem _ (List.mem_cons_of_mem _ h2)

theorem pickClosest_mem (s : Int) (o : Nat) (rest : List Nat) :
    pickClosest s o rest ∈ o :: rest := by
  unfold pickClosest
  exact foldl_choice_mem (fun b c => by split <;> simp) rest o

theorem searchRelocate_valid {t : List Char} {en : AnnotationEntity}
    {p : List Char} {en' : AnnotationEntity} {b : Bool}
    (h : searchRelocate t en p = some (en', b)) : spanValid t en' := by
  unfold searchRelocate at h
  split at h
  · exact absurd h (by simp)
  · rename_i hpe
    split at h
    · exact absurd h (by simp)
    · rename_i o rest hocc
      rw [Option.some_inj] at h
      have hmem : pickClosest en.start_char o rest ∈ occList t p := by
        rw [hocc]; exact pickClosest_mem _ _ _
      obtain ⟨htake, hlen⟩ := occList_mem hmem
      have hplen : 0 < p.length := by
        cases p with
        | nil => simp at hpe
        | cons _ _ => simp
      set c := pickClosest en.start_char o rest with hc
      have hen' : en' = relocateTo t en p c := by
        have := congrArg Prod.fst h
        simpa using this.symm
      subst hen'
      unfold spanValid relocateTo
      refine ⟨by positivity, ?_, ?_, ?_⟩
      · simp only
        omega
      · simp only
        omega
      · simp only
        have h1 : ((c : Int)).toNat = c := by omega
        have h2 : ((c : Int) + (p.length : Int)).toNat = c + p.length := by omega
        rw [h1, h2]

theorem fixOne_of_valid {t : List Char} {en : AnnotationEntity}
    (h : spanValid t en) : fixOne t en = (some en, FixOutcome.already_correct) := by
  unfold fixOne
  rw [if_pos h]

theorem fixOne_output_valid {t : List Char} {en en' : AnnotationEntity}
    {oc : FixOutcome} (h : fixOne t en = (some en', oc)) : spanValid t en' := by
  unfold fixOne at h
  split at h
  · rename_i hv
    cases h
    exact hv
  · split at h
    · rename_i en2 b hsr
      cases h
      exact searchRelocate_valid hsr
    · split at h
      · rename_i en2 b hsr
        cases h
        exact searchRelocate_valid hsr
      · cases h

theorem fixAnnotations_output_valid (t : List Char) (es : List AnnotationEntity) :
    ∀ en' ∈ (fixAnnotations t es).fixed_entities, spanValid t en' := by
  induction es with
  | nil => intro en' h; simp [fixAnnotations] at h
  | cons en rest ih =>
    intro en' h
    rcases hfo : fixOne t en with ⟨o, oc⟩
    cases o with
    | none =>
      cases oc <;>
        · rw [fixAnnotations, hfo] at h
          exact ih en' h
    | some en2 =>
      have hv := fixOne_output_valid hfo
      cases oc <;>
        · rw [fixAnnotations, hfo] at h
          simp only [List.mem_cons] at h
          rcases h with rfl | h
          · exact hv
          · exact ih en' h

theorem fixAnnotations_of_valid (t : List Char) (es : List AnnotationEntity)
    (h : ∀ e ∈ es, spanValid t e) :
    fixAnnotations t es = ⟨es, es.length, es.length, 0, 0, 0⟩ := by
  induction es with
  | nil => rfl
  | cons en rest ih =>
    have hen : spanValid t en := h en (List.mem_cons_self _ _)
    have hrest : ∀ e ∈ rest, spanValid t e :=
      fun e he => h e (List.mem_cons_of_mem _ he)
    rw [fixAnnotations, fixOne_of_valid hen, ih hrest]
    rfl

theorem assignRefs_mem {base : Nat} {l : List AnnotationEntity} {p : RefEntity}
    (h : p ∈ assignRefs base l) : base ≤ p.ref := by
  induction l generalizing base with
  | nil => simp [assignRefs] at h
  | cons e rest ih =>
    rw [assignRefs, List.mem_cons] at h
    rcases h with rfl | h
    · simp
    · exact Nat.le_of_succ_le (ih h)

theorem filterSources_len (u : List AnnotationEntity) :
    (u.filter (fun e => e.source = some Source.llm)).length +
      (u.filter (fun e => e.source = some Source.manual)).length ≤ u.length := by
  induction u with
  | nil => simp
  | cons e u ih =>
    by_cases h1 : e.source = some Source.llm
    · have h2 : ¬ e.source = some Source.manual := by rw [h1]; simp
      simp [List.filter_cons, h1, h2]
      omega
    · by_cases h2 : e.source = some Source.manual <;>
        · simp [List.filter_cons, h1, h2]
          omega

/-- Claim C1, counterexample: `combinedEntities` performs no overlap
elimination, so an LLM span `[0,5)` and a manual span `[3,8)` both survive
into the combined set with intersecting ranges, refuting the no-overlap
postcondition for the set passed on to validation and export. -/
theorem combinedEntities_overlap_counterexample :
    ¬ pairwiseNonOverlapping
      (combinedEntities
        [⟨0, 5, "abcde", "T", none, none⟩]
        [⟨3, 8, "defgh", "T", none, none⟩]) := by
  decide

/-- Claim C1, amended: `combinedEntities` merely unions the LLM-origin and
manual-origin span lists (stamping each span's source) and sorts the union
by `start_char`; every input span is retained — no span is dropped by any
overlap-resolution precedence rule, so overlapping inputs yield overlapping
outputs. -/
theorem combinedEntities_retains_all_spans
    (entities manualEntities : List AnnotationEntity) :
    (combinedEntities entities manualEntities).Perm
      (entities.map (stampSource Source.llm) ++
        manualEntities.map (stampSource Source.manual)) :=
  sortByKey_perm _ _

/-- Claim C2: the Fixer is idempotent — applying `fixAnnotations` to its own
output leaves the fixed span set unchanged, reports every span as
`already_correct` (all of them, with `fixed = 0`), and keeps unfixable spans
absent (`unfixable = 0`). -/
theorem fixAnnotations_idempotent (t : List Char) (es : List AnnotationEntity) :
    fixAnnotations t (fixAnnotations t es).fixed_entities =
      { fixed_entities := (fixAnnotations t es).fixed_entities
        total := (fixAnnotations t es).fixed_entities.length
        already_correct := (fixAnnotations t es).fixed_entities.length
        fixed := 0
        unfixable := 0
        multiple_matches := 0 } :=
  fixAnnotations_of_valid t _ (fixAnnotations_output_valid t es)

/-- Claim C3, counterexample: the sort comparator of `combinedEntities`
compares `start_char` only; two spans with equal starts keep their input
order, so a pair with ends `10` then `5` violates the claimed
end-ascending tie-break. -/
theorem combinedEntities_tie_order_counterexample :
    ¬ sortedByStartThenEnd
      (combinedEntities
        [⟨0, 10, "c", "T", none, none⟩, ⟨0, 5, "d", "T", none, none⟩]
        []) := by
  decide

/-- Claim C3, amended: the combined span list is sorted by `start_char`
ascending only; ties keep the stable input order (all LLM spans before all
manual spans), with no tie-break on `end_char`. -/
theorem combinedEntities_sorted_by_start
    (entities manualEntities : List AnnotationEntity) :
    (combinedEntities entities manualEntities).Pairwise
      (fun a b => a.start_char ≤ b.start_char) :=
  sortByKey_pairwise _ _

/-- Claim C4, counterexample: selecting the same range `[0,4)` twice and
adding a manual annotation each time yields a reachable state whose manual
span set contains two spans with identical `(start_char, end_char)`,
refuting the claimed uniqueness invariant. -/
theorem manual_duplicate_counterexample :
    ¬ ( handleAddManualAnnotation "ORG"
        (setSelection "Acme" (0, 4)
          ( handleAddManualAnnotation "ORG"
            (setSelection "Acme" (0, 4)
              initialPageState)))).manualEntities.Pairwise
        (fun a b => (a.start_char, a.end_char) ≠ (b.start_char, b.end_char)) := by
  decide

/-- Claim C4, amended: `handleAddManualAnnotation` performs no duplicate
check — whenever a selection with non-empty trimmed text is present it
unconditionally appends the new manual span, even when a manual span with
identical `(start_char, end_char)` is already stored. -/
theorem handleAddManualAnnotation_appends_unconditionally
    (label : String) (st : PageState) (r : Int × Int)
    (hr : st.selectedRange = some r)
    (ht : (trimChars st.selectedText.data).isEmpty = false) :
    ( handleAddManualAnnotation label st).manualEntities =
      st.manualEntities ++
        [{ start_char := r.1
           end_char := r.2
           text := st.selectedText
           label := label
           confidence := some 1
           source := some Source.manual }] := by
  unfold handleAddManualAnnotation
  rw [hr]
  simp only [ht, Bool.false_eq_true, if_false]

/-- Witness for claim C4's amended theorem at the state that selected
`"Acme"` over the range `[0,4)`. -/
theorem handleAddManualAnnotation_appends_witness :
    ( handleAddManualAnnotation "ORG"
        (setSelection "Acme" (0, 4) initialPageState)).manualEntities =
      (setSelection "Acme" (0, 4) initialPageState).manualEntities ++
        [{ start_char := 0
           end_char := 4
           text := "Acme"
           label := "ORG"
           confidence := some 1
           source := some Source.manual }] :=
  handleAddManualAnnotation_appends_unconditionally "ORG"
    (setSelection "Acme" (0, 4) initialPageState) (0, 4) rfl (by decide)

/-- Claim C5, counterexample: the chunk-size slider reaches `200` and the
overlap slider reaches `200`, so the settings controls admit a pair with
`overlap = chunkSize`, refuting the strict precondition
`overlap < chunk_size`. -/
theorem slider_overlap_eq_chunkSize_counterexample :
    chunkSizeReachable 200 ∧ overlapReachable 200 ∧ ¬ (200 < 200) := by
  decide

/-- Claim C5, amended: every `(chunkSize, overlap)` pair reachable through
the settings sliders satisfies only the non-strict bound
`overlap ≤ chunkSize`; equality occurs exactly at `(200, 200)`. -/
theorem slider_overlap_le_chunkSize (c o : Nat)
    (hc : chunkSizeReachable c) (ho : overlapReachable o) : o ≤ c := by
  unfold chunkSizeReachable at hc
  unfold overlapReachable at ho
  omega

/-- Witness for claim C5's amended theorem at the default settings
`chunkSize = 1000`, `overlap = 50`. -/
theorem slider_overlap_le_chunkSize_witness : (50 : Nat) ≤ 1000 :=
  slider_overlap_le_chunkSize 1000 50 (by decide) (by decide)

/-- Claim C6, counterexample: given a response whose only span payload is
`fixed_entities`, the second `ValidationComponent` variant leaves the
entity state untouched — it reads `fixed_annotations`, not
`fixed_entities` — while the first variant does consume `fixed_entities`. -/
theorem fixResponse_consumption_counterexample :
    applyFixResponseV2
        { fixed_entities := some [⟨0, 4, "Acme", "ORG", none, some Source.llm⟩]
          fixed_annotations := none
          fix_statistics := none } ([], []) = ([], []) ∧
      applyFixResponseV1
        { fixed_entities := some [⟨0, 4, "Acme", "ORG", none, some Source.llm⟩]
          fixed_annotations := none
          fix_statistics := none } ([], []) ≠ ([], []) := by
  decide

/-- Claim C6, amended: the repaired spans of a fix response are consumed
from `fixed_entities` by the first `ValidationComponent` variant and from
`fixed_annotations` by the second variant; in each case the present list is
handed to `onEntitiesUpdate`. -/
theorem fixResponse_consumption_variants (l : List AnnotationEntity)
    (st : Option FixStatistics)
    (cur : List AnnotationEntity × List AnnotationEntity) :
    applyFixResponseV1 ⟨some l, none, st⟩ cur = onEntitiesUpdate l ∧
      applyFixResponseV2 ⟨none, some l, st⟩ cur = onEntitiesUpdate l :=
  ⟨rfl, rfl⟩

/-- Claim C7: whenever the guard of `handleAddManualAnnotation` passes, the
span it creates carries `confidence = 1.0` and `source = "manual"`. -/
theorem manual_annotation_confidence_one (label : String) (st : PageState)
    (r : Int × Int) (hr : st.selectedRange = some r)
    (ht : (trimChars st.selectedText.data).isEmpty = false) :
    ∃ en : AnnotationEntity,
      ( handleAddManualAnnotation label st).manualEntities =
          st.manualEntities ++ [en] ∧
        en.confidence = some 1 ∧ en.source = some Source.manual := by
  refine ⟨{ start_char := r.1
            end_char := r.2
            text := st.selectedText
            label := label
            confidence := some 1
            source := some Source.manual }, ?_, rfl, rfl⟩
  unfold handleAddManualAnnotation
  rw [hr]
  simp only [ht, Bool.false_eq_true, if_false]

/-- Witness for claim C7 at the state that selected `"Acme"` over `[0,4)`. -/
theorem manual_annotation_confidence_one_witness :
    ∃ en : AnnotationEntity,
      ( handleAddManualAnnotation "ORG"
            (setSelection "Acme" (0, 4) initialPageState)).manualEntities =
          (setSelection "Acme" (0, 4) initialPageState).manualEntities ++ [en] ∧
        en.confidence = some 1 ∧ en.source = some Source.manual :=
  manual_annotation_confidence_one "ORG"
    (setSelection "Acme" (0, 4) initialPageState) (0, 4) rfl (by decide)

/-- Claim C8: removing an entity drawn from `combinedEntities` is a no-op on
both stored lists — every element of the combined list is a fresh spread
copy whose object reference differs from every stored object's reference,
and `handleRemoveEntity` filters by reference equality. -/
theorem handleRemoveEntity_noop_on_combined (st : RefState) (o : RefEntity)
    (hwf : refWF st) (ho : o ∈ combinedObjs st) :
    handleRemoveEntityRef o st = st := by
  unfold combinedObjs at ho
  have h1 := (sortByKey_perm (fun (p : RefEntity) => p.val.start_char) _).mem_iff.mp ho
  have h2 : st.nextRef ≤ o.ref := assignRefs_mem h1
  obtain ⟨hw1, hw2⟩ := hwf
  have hf1 : st.entities.filter (fun p => p.ref ≠ o.ref) = st.entities := by
    rw [List.filter_eq_self]
    intro a ha
    have := hw1 a ha
    simp only [decide_eq_true_eq]
    omega
  have hf2 : st.manualEntities.filter (fun p => p.ref ≠ o.ref) = st.manualEntities := by
    rw [List.filter_eq_self]
    intro a ha
    have := hw2 a ha
    simp only [decide_eq_true_eq]
    omega
  unfold handleRemoveEntityRef
  split
  · rw [hf2]
  · rw [hf1]

/-- Witness for claim C8 at a state holding one LLM entity with reference
`0` and supply bound `1`; the combined list's single element carries the
fresh reference `1`, and removing it changes nothing. -/
theorem handleRemoveEntity_noop_witness :
    handleRemoveEntityRef
        ⟨1, { start_char := 0, end_char := 4, text := "Acme", label := "ORG",
              confidence := none, source := some Source.llm }⟩
        ⟨[⟨0, ⟨0, 4, "Acme", "ORG", none, none⟩⟩], [], 1⟩ =
      ⟨[⟨0, ⟨0, 4, "Acme", "ORG", none, none⟩⟩], [], 1⟩ :=
  handleRemoveEntity_noop_on_combined
    ⟨[⟨0, ⟨0, 4, "Acme", "ORG", none, none⟩⟩], [], 1⟩
    ⟨1, { start_char := 0, end_char := 4, text := "Acme", label := "ORG",
          confidence := none, source := some Source.llm }⟩
    (by decide) (by decide)

/-- Claim C9: `onEntitiesUpdate` splits the updated list into the
`source = "llm"` and `source = "manual"` filters; their union is a
permutation of the input exactly when every input entity carries one of
those two source values, and an entity with any other (or absent) source
lands in neither resulting list. -/
theorem onEntitiesUpdate_partition_complete_iff (u : List AnnotationEntity) :
    (((onEntitiesUpdate u).1 ++ (onEntitiesUpdate u).2).Perm u ↔
        ∀ e ∈ u, e.source = some Source.llm ∨ e.source = some Source.manual) ∧
      ∀ e : AnnotationEntity, e.source ≠ some Source.llm →
        e.source ≠ some Source.manual →
        e ∉ (onEntitiesUpdate u).1 ∧ e ∉ (onEntitiesUpdate u).2 := by
  constructor
  · unfold onEntitiesUpdate
    constructor
    · intro h
      induction u with
      | nil => simp
      | cons e u ih =>
        rcases hsrc : e.source with _ | s
        · exfalso
          rw [List.filter_cons, List.filter_cons] at h
          rw [hsrc] at h
          simp only [decide_eq_true_eq, reduceCtorEq, if_false] at h
          have hlen := h.length_eq
          have hle := filterSources_len u
          simp only [List.length_append, List.length_cons] at hlen
          omega
        · cases s with
          | llm =>
            rw [List.filter_cons, List.filter_cons] at h
            rw [hsrc] at h
            simp only [decide_eq_true_eq, reduceCtorEq, reduceIte] at h
            rw [List.cons_append] at h
            have h' := h.cons_inv
            intro e' he'
            rcases List.mem_cons.mp he' with rfl | he'
            · exact Or.inl hsrc
            · exact ih h' e' he'
          | manual =>
            rw [List.filter_cons, List.filter_cons] at h
            rw [hsrc] at h
            simp only [decide_eq_true_eq, reduceCtorEq, reduceIte] at h
            have h' := (List.perm_middle.symm.trans h).cons_inv
            intro e' he'
            rcases List.mem_cons.mp he' with rfl | he'
            · exact Or.inr hsrc
            · exact ih h' e' he'
    · intro h
      induction u with
      | nil => simp
      | cons e u ih =>
        have hrest : ∀ e' ∈ u,
            e'.source = some Source.llm ∨ e'.source = some Source.manual :=
          fun e' he' => h e' (List.mem_cons_of_mem _ he')
        rcases h e (List.mem_cons_self _ _) with hl | hm
        · have h2 : ¬ e.source = some Source.manual := by rw [hl]; simp
          rw [List.filter_cons, List.filter_cons]
          rw [hl]
          simp only [decide_eq_true_eq, reduceCtorEq, reduceIte]
          rw [List.cons_append]
          exact (ih hrest).cons e
        · have h1 : ¬ e.source = some Source.llm := by rw [hm]; simp
          rw [List.filter_cons, List.filter_cons]
          rw [hm]
          simp only [decide_eq_true_eq, reduceCtorEq, reduceIte]
          exact List.perm_middle.trans ((ih hrest).cons e)
  · intro e h1 h2
    constructor <;> intro hmem <;>
      · have := (List.mem_filter.mp hmem).2
        rw [decide_eq_true_eq] at this
        first
        | exact h1 this
        | exact h2 this

/-- Claim C10: for every chunk size in the selectable range `200`–`4000`,
the token recommendations are consistently ordered:
`min_tokens ≤ default_tokens ≤ max_tokens_limit`. -/
theorem tokenRecommendations_ordered (c : Nat) (h1 : 200 ≤ c) (h2 : c ≤ 4000) :
    (tokenRecommendations c).1 ≤ (tokenRecommendations c).2.2.1 ∧
      (tokenRecommendations c).2.2.1 ≤ (tokenRecommendations c).2.1 := by
  simp only [tokenRecommendations]
  omega

/-- Witness for claim C10 at the default chunk size `1000`. -/
theorem tokenRecommendations_ordered_witness :
    (tokenRecommendations 1000).1 ≤ (tokenRecommendations 1000).2.2.1 ∧
      (tokenRecommendations 1000).2.2.1 ≤ (tokenRecommendations 1000).2.1 :=
  tokenRecommendations_ordered 1000 (by decide) (by decide)

end Annot
